import Mathlib

/-!
Shallow embedding of `classifications.py` (PyMLDL/PRML): least-squares
classification, linear discriminant analysis, binary and multinomial logistic
regression fit by IRLS, a Bayesian (Laplace) extension of logistic regression,
and a Gaussian-process classifier.  Machine floats are modelled as real
numbers; `numpy` arrays become functions out of `Fin`; `np.linalg.solve` /
`np.linalg.inv`, which raise `LinAlgError` on a singular input, become
`Option`-valued operations guarded by invertibility of the matrix.
-/

namespace Classifications

open scoped BigOperators
open Matrix

noncomputable section

/-- `LogisticRegression._sigmoid`: `1 / (1 + np.exp(-a))`, elementwise. -/
def sigmoid (a : ℝ) : ℝ := 1 / (1 + Real.exp (-a))

/-- Model of `np.linalg.solve(A, b)`: returns the solution of `A x = b` when
`A` is invertible, and `none` (modelling the raised `LinAlgError`) otherwise. -/
def npSolve {d : ℕ} (A : Matrix (Fin d) (Fin d) ℝ) (b : Fin d → ℝ) :
    Option (Fin d → ℝ) := by
  classical exact if IsUnit A.det then some (A⁻¹.mulVec b) else none

/-- Model of `np.allclose(a, b)` with numpy's default tolerances
`rtol = 1e-05`, `atol = 1e-08`: elementwise
`|a - b| ≤ atol + rtol * |b|`. -/
def npAllclose {d : ℕ} (a b : Fin d → ℝ) : Prop :=
  ∀ j, |a j - b j| ≤ 1e-8 + 1e-5 * |b j|

/-! ### `LogisticRegression` (binary, IRLS) -/

variable {n d : ℕ}

/-- `LogisticRegression.predict_proba`: `self._sigmoid(X @ self.w)`. -/
def lrProba (X : Matrix (Fin n) (Fin d) ℝ) (w : Fin d → ℝ) : Fin n → ℝ :=
  fun i => sigmoid (X.mulVec w i)

/-- The gradient computed in `LogisticRegression.fit`:
`grad = X.T @ (y - t) + self.alpha * w`. -/
def lrGrad (X : Matrix (Fin n) (Fin d) ℝ) (t : Fin n → ℝ) (α : ℝ)
    (w : Fin d → ℝ) : Fin d → ℝ :=
  Xᵀ.mulVec (lrProba X w - t) + α • w

/-- The Hessian computed in `LogisticRegression.fit`, translated from the
broadcast expression `(X.T * y * (1 - y)) @ X + self.alpha * np.eye(...)`:
entry `(j, k)` is `∑ i, X i j * y i * (1 - y i) * X i k` plus the ridge
term on the diagonal. -/
def lrHessian (X : Matrix (Fin n) (Fin d) ℝ) (y : Fin n → ℝ) (α : ℝ) :
    Matrix (Fin d) (Fin d) ℝ :=
  Matrix.of fun j k =>
    (∑ i, X i j * y i * (1 - y i) * X i k) + α * (if j = k then 1 else 0)

/-- One iteration body of `LogisticRegression.fit`: compute `y`, `grad`,
`hessian`, then `self.w -= np.linalg.solve(hessian, grad)`; `none` models the
caught `LinAlgError`. -/
def lrStepOpt (X : Matrix (Fin n) (Fin d) ℝ) (t : Fin n → ℝ) (α : ℝ)
    (w : Fin d → ℝ) : Option (Fin d → ℝ) :=
  (npSolve (lrHessian X (lrProba X w) α) (lrGrad X t α w)).map
    (fun δ => fun j => w j - δ j)

open Classical in
/-- The `for i in range(iter_max)` loop of `LogisticRegression.fit`, with the
remaining iteration count as fuel.  Returns the final weight vector together
with the number of loop iterations that were entered, so that `n_iter = i + 1`
is exactly the returned count.  A failed solve (`except np.linalg.LinAlgError:
break`) keeps the pre-iteration weights; `if np.allclose(w, self.w): break`
stops after a converged update. -/
def lrLoop (X : Matrix (Fin n) (Fin d) ℝ) (t : Fin n → ℝ) (α : ℝ) :
    ℕ → (Fin d → ℝ) → (Fin d → ℝ) × ℕ
  | 0, w => (w, 0)
  | fuel + 1, w =>
    match lrStepOpt X t α w with
    | none => (w, 1)
    | some w2 =>
      if npAllclose w w2 then (w2, 1)
      else ((lrLoop X t α fuel w2).1, (lrLoop X t α fuel w2).2 + 1)

/-- `LogisticRegression.fit(X, t, iter_max)`: `self.w` starts at
`np.zeros(np.size(X, 1))`; the loop runs over `range(iter_max)`.  When
`iter_max ≤ 0` the loop body never executes, so the final statement
`self.n_iter = i + 1` reads the never-assigned loop variable `i` and the call
raises `NameError`, modelled as `none`. -/
def lrFit (X : Matrix (Fin n) (Fin d) ℝ) (t : Fin n → ℝ) (α : ℝ)
    (iterMax : ℤ) : Option ((Fin d → ℝ) × ℕ) :=
  match iterMax.toNat with
  | 0 => none
  | fuel + 1 => some (lrLoop X t α (fuel + 1) (fun _ => 0))

/-- The per-sample Newton weights `y * (1 - y)` appearing in the Hessian. -/
def irlsWeight (y : Fin n → ℝ) : Fin n → ℝ := fun i => y i * (1 - y i)

/-- The Hessian as the specification words it:
`Xᵀ · diag(y·(1−y)) · X + alpha · I`. -/
def lrHessianSpec (X : Matrix (Fin n) (Fin d) ℝ) (y : Fin n → ℝ) (α : ℝ) :
    Matrix (Fin d) (Fin d) ℝ :=
  Xᵀ * Matrix.diagonal (irlsWeight y) * X + α • (1 : Matrix (Fin d) (Fin d) ℝ)

theorem lrHessian_eq_spec (X : Matrix (Fin n) (Fin d) ℝ) (y : Fin n → ℝ)
    (α : ℝ) : lrHessian X y α = lrHessianSpec X y α := by
  ext j k
  have hmul : (Xᵀ * Matrix.diagonal (irlsWeight y) * X) j k
      = ∑ i, X i j * irlsWeight y i * X i k := by
    rw [Matrix.mul_apply]
    exact Finset.sum_congr rfl fun i _ => by
      rw [Matrix.mul_diagonal, Matrix.transpose_apply]
  simp only [lrHessian, lrHessianSpec, Matrix.of_apply, Matrix.add_apply, hmul,
    Matrix.smul_apply, Matrix.one_apply, smul_eq_mul, mul_ite, mul_one,
    mul_zero, irlsWeight]
  congr 1
  exact Finset.sum_congr rfl fun i _ => by ring

theorem sigmoid_zero : sigmoid 0 = 1 / 2 := by
  simp only [sigmoid, neg_zero, Real.exp_zero]
  norm_num

/-- A one-sample, one-feature data set used to instantiate the theorems. -/
def Xone : Matrix (Fin 1) (Fin 1) ℝ := Matrix.of ![![(1 : ℝ)]]

theorem lrProba_Xone_zero : lrProba Xone ![(0 : ℝ)] = fun _ => 1 / 2 := by
  funext i
  simp [lrProba, Xone, Matrix.mulVec, Matrix.dotProduct, sigmoid_zero]

theorem lrHessianSpec_Xone_unit :
    IsUnit (lrHessianSpec Xone (lrProba Xone ![(0 : ℝ)]) 0).det := by
  rw [Matrix.det_fin_one, lrProba_Xone_zero]
  simp only [lrHessianSpec, irlsWeight, Matrix.add_apply, Matrix.smul_apply,
    Matrix.mul_apply, Matrix.mul_diagonal, Matrix.transpose_apply,
    Matrix.one_apply_eq, smul_eq_mul, Fin.sum_univ_one, Xone, Matrix.of_apply,
    Matrix.cons_val_zero, Matrix.cons_val_fin_one]
  norm_num [irlsWeight]

/-- **C1.** Each iteration of `LogisticRegression.fit` computes
`y = sigmoid(X·w)`, `gradient = Xᵀ(y − t) + alpha·w`,
`Hessian = Xᵀ·diag(y·(1−y))·X + alpha·I`, solves `Hessian·Δ = gradient`, and
updates `w ← w − Δ`. -/
theorem logistic_fit_iteration_newton_update
    (X : Matrix (Fin n) (Fin d) ℝ) (t : Fin n → ℝ) (α : ℝ) (w : Fin d → ℝ)
    (hH : IsUnit (lrHessianSpec X (lrProba X w) α).det) :
    lrProba X w = (fun i => sigmoid (X.mulVec w i)) ∧
    lrGrad X t α w = Xᵀ.mulVec (lrProba X w - t) + α • w ∧
    lrHessian X (lrProba X w) α = lrHessianSpec X (lrProba X w) α ∧
    (lrHessianSpec X (lrProba X w) α).mulVec
        ((lrHessianSpec X (lrProba X w) α)⁻¹.mulVec (lrGrad X t α w)) =
      lrGrad X t α w ∧
    lrStepOpt X t α w =
      some (w - (lrHessianSpec X (lrProba X w) α)⁻¹.mulVec (lrGrad X t α w)) := by
  refine ⟨rfl, rfl, lrHessian_eq_spec X (lrProba X w) α, ?_, ?_⟩
  · rw [Matrix.mulVec_mulVec, Matrix.mul_nonsing_inv _ hH, Matrix.one_mulVec]
  · simp only [lrStepOpt, npSolve, lrHessian_eq_spec, hH, if_true, Option.map_some']
    rfl

/-- Witness for C1 at a concrete one-sample data set. -/
theorem logistic_fit_iteration_newton_update_witness :
    IsUnit (lrHessianSpec Xone (lrProba Xone ![(0 : ℝ)]) 0).det ∧
    lrStepOpt Xone ![(0 : ℝ)] 0 ![(0 : ℝ)] =
      some (![(0 : ℝ)] -
        (lrHessianSpec Xone (lrProba Xone ![(0 : ℝ)]) 0)⁻¹.mulVec
          (lrGrad Xone ![(0 : ℝ)] 0 ![(0 : ℝ)])) :=
  ⟨lrHessianSpec_Xone_unit,
    (logistic_fit_iteration_newton_update Xone ![(0 : ℝ)] 0 ![(0 : ℝ)]
      lrHessianSpec_Xone_unit).2.2.2.2⟩

/-! ### `MultiLogisticRegression` (multinomial, IRLS with per-class blocks) -/

variable {dd K : ℕ}

/-- `np.max(a, axis=-1)` over one row, for a nonempty class axis. -/
def rowMax [NeZero K] (a : Fin K → ℝ) : ℝ :=
  Finset.univ.sup' ⟨⟨0, Nat.pos_of_ne_zero (NeZero.ne K)⟩, Finset.mem_univ _⟩ a

/-- `MultiLogisticRegression._softmax`: subtract the row max (numerical
stabilization), exponentiate, divide by the row sum. -/
def softmax [NeZero K] (a : Fin K → ℝ) : Fin K → ℝ :=
  fun k => Real.exp (a k - rowMax a) / ∑ j, Real.exp (a j - rowMax a)

/-- `MultiLogisticRegression.predict_proba`: `self._softmax(X @ self.w)`. -/
def multiProba [NeZero K] (X : Matrix (Fin n) (Fin dd) ℝ)
    (W : Matrix (Fin dd) (Fin K) ℝ) : Fin n → Fin K → ℝ :=
  fun i => softmax (fun k => (X * W) i k)

theorem softmax_sum_eq_one [NeZero K] (a : Fin K → ℝ) :
    ∑ k, softmax a k = 1 := by
  have hpos : 0 < ∑ j, Real.exp (a j - rowMax a) :=
    Finset.sum_pos (fun j _ => Real.exp_pos _)
      ⟨⟨0, Nat.pos_of_ne_zero (NeZero.ne K)⟩, Finset.mem_univ _⟩
  simp only [softmax]
  rw [← Finset.sum_div, div_self hpos.ne']

/-- **C9.** Each row of `MultiLogisticRegression.predict_proba(X)` sums to 1:
the softmax subtracts the row-wise maximum before exponentiating and divides
by the row sum of the exponentials, so the output is row-stochastic. -/
theorem multi_predict_proba_rows_sum_one [NeZero K]
    (X : Matrix (Fin n) (Fin dd) ℝ) (W : Matrix (Fin dd) (Fin K) ℝ)
    (i : Fin n) :
    (∀ k, multiProba X W i k =
      Real.exp ((X * W) i k - rowMax (fun j => (X * W) i j)) /
        ∑ j, Real.exp ((X * W) i j - rowMax (fun j => (X * W) i j))) ∧
    ∑ k, multiProba X W i k = 1 :=
  ⟨fun _ => rfl, softmax_sum_eq_one _⟩

/-- Witness for C9 on a concrete one-sample, one-class input. -/
theorem multi_predict_proba_rows_sum_one_witness :
    ∑ k, multiProba Xone (Matrix.of ![![(0 : ℝ)]]) 0 k = 1 :=
  (multi_predict_proba_rows_sum_one Xone (Matrix.of ![![(0 : ℝ)]]) 0).2

/-- The gradient computed in `MultiLogisticRegression.fit`:
`grad = X.T @ (y - T) + self.alpha * w`. -/
def multiGrad [NeZero K] (X : Matrix (Fin n) (Fin dd) ℝ)
    (T : Matrix (Fin n) (Fin K) ℝ) (α : ℝ) (W : Matrix (Fin dd) (Fin K) ℝ) :
    Matrix (Fin dd) (Fin K) ℝ :=
  Xᵀ * (Matrix.of (multiProba X W) - T) + α • W

/-- The 3-index Hessian tensor of `MultiLogisticRegression.fit`, translated
from `np.einsum('ink,nj->ijk', X.T[:, :, None] * y * (1 - y), X)` plus
`self.alpha * np.eye(len(self.w))[:, :, None]`. -/
def multiHessian (X : Matrix (Fin n) (Fin dd) ℝ) (y : Fin n → Fin K → ℝ)
    (α : ℝ) : Fin dd → Fin dd → Fin K → ℝ :=
  fun i j k =>
    (∑ m, X m i * y m k * (1 - y m k) * X m j) + α * (if i = j then 1 else 0)

/-- Model of the batched `np.linalg.solve(A, b)` on a stack of square systems:
fails (raises `LinAlgError`, here `none`) as soon as one block is singular. -/
def npSolveBatch (A : Fin K → Matrix (Fin dd) (Fin dd) ℝ)
    (b : Fin K → Fin dd → ℝ) : Option (Fin K → Fin dd → ℝ) := by
  classical
  exact if ∀ k, IsUnit (A k).det then some (fun k => (A k)⁻¹.mulVec (b k))
    else none

/-- One iteration body of `MultiLogisticRegression.fit`:
`self.w -= np.linalg.solve(hessian.T, grad.T).T`.  Transposing the 3-index
tensor reverses all axes, so the system solved for class `k` has matrix
`fun a b => hessian b a k`; the solutions come back one row per class and are
transposed into weight-column updates. -/
def multiStepOpt [NeZero K] (X : Matrix (Fin n) (Fin dd) ℝ)
    (T : Matrix (Fin n) (Fin K) ℝ) (α : ℝ) (W : Matrix (Fin dd) (Fin K) ℝ) :
    Option (Matrix (Fin dd) (Fin K) ℝ) :=
  (npSolveBatch
      (fun k => Matrix.of fun a b => multiHessian X (multiProba X W) α b a k)
      (fun k a => multiGrad X T α W a k)).map
    (fun δ => Matrix.of fun i k => W i k - δ k i)

/-- `np.allclose` on matrices, elementwise with numpy's default tolerances. -/
def npAllcloseM (A B : Matrix (Fin dd) (Fin K) ℝ) : Prop :=
  ∀ i k, |A i k - B i k| ≤ 1e-8 + 1e-5 * |B i k|

open Classical in
/-- The `for i in range(iter_max)` loop of `MultiLogisticRegression.fit`,
with the same break/convergence structure as the binary loop. -/
def multiLoop [NeZero K] (X : Matrix (Fin n) (Fin dd) ℝ)
    (T : Matrix (Fin n) (Fin K) ℝ) (α : ℝ) :
    ℕ → Matrix (Fin dd) (Fin K) ℝ → Matrix (Fin dd) (Fin K) ℝ × ℕ
  | 0, W => (W, 0)
  | fuel + 1, W =>
    match multiStepOpt X T α W with
    | none => (W, 1)
    | some W2 =>
      if npAllcloseM W W2 then (W2, 1)
      else ((multiLoop X T α fuel W2).1, (multiLoop X T α fuel W2).2 + 1)

/-- The one-hot target matrix `np.eye(n_classes)[t]`. -/
def oneHot (nc : ℕ) (t : Fin n → ℕ) : Matrix (Fin n) (Fin nc) ℝ :=
  Matrix.of fun i k => if t i = (k : ℕ) then 1 else 0

/-- `MultiLogisticRegression.fit(X, t, iter_max)`: `n_classes = np.max(t)+1`,
`T = np.eye(n_classes)[t]`, `self.w` starts at the zero matrix.  As in the
binary fit, `iter_max ≤ 0` leaves the loop variable `i` unassigned and
`self.n_iter = i + 1` raises `NameError`, modelled as `none`. -/
def multiFit (X : Matrix (Fin n) (Fin dd) ℝ) (t : Fin n → ℕ) (α : ℝ)
    (iterMax : ℤ) :
    Option (Matrix (Fin dd) (Fin (Finset.univ.sup t + 1)) ℝ × ℕ) :=
  match iterMax.toNat with
  | 0 => none
  | fuel + 1 =>
    some (multiLoop X (oneHot (Finset.univ.sup t + 1) t) α (fuel + 1) 0)

/-- The per-class Hessian block as the specification words it:
`block_k = Xᵀ·diag(y[:,k]·(1−y[:,k]))·X + alpha·I`. -/
def multiBlockSpec (X : Matrix (Fin n) (Fin dd) ℝ) (y : Fin n → Fin K → ℝ)
    (α : ℝ) (k : Fin K) : Matrix (Fin dd) (Fin dd) ℝ :=
  Xᵀ * Matrix.diagonal (fun m => y m k * (1 - y m k)) * X +
    α • (1 : Matrix (Fin dd) (Fin dd) ℝ)

theorem multiHessian_eq_block (X : Matrix (Fin n) (Fin dd) ℝ)
    (y : Fin n → Fin K → ℝ) (α : ℝ) (i j : Fin dd) (k : Fin K) :
    multiHessian X y α i j k = multiBlockSpec X y α k i j := by
  have hmul : (Xᵀ * Matrix.diagonal (fun m => y m k * (1 - y m k)) * X) i j
      = ∑ m, X m i * (y m k * (1 - y m k)) * X m j := by
    rw [Matrix.mul_apply]
    exact Finset.sum_congr rfl fun m _ => by
      rw [Matrix.mul_diagonal, Matrix.transpose_apply]
  simp only [multiHessian, multiBlockSpec, Matrix.add_apply, hmul,
    Matrix.smul_apply, Matrix.one_apply, smul_eq_mul, mul_ite, mul_one,
    mul_zero]
  congr 1
  exact Finset.sum_congr rfl fun m _ => by ring

theorem multiBlockSpec_symm (X : Matrix (Fin n) (Fin dd) ℝ)
    (y : Fin n → Fin K → ℝ) (α : ℝ) (k : Fin K) :
    (multiBlockSpec X y α k)ᵀ = multiBlockSpec X y α k := by
  simp only [multiBlockSpec, Matrix.transpose_add, Matrix.transpose_smul,
    Matrix.transpose_one, Matrix.transpose_mul, Matrix.transpose_transpose,
    Matrix.diagonal_transpose, Matrix.mul_assoc]

/-- **C2.** In every iteration of `MultiLogisticRegression.fit`, the Hessian
is a 3-index tensor whose class-`k` block is
`Xᵀ·diag(y[:,k]·(1−y[:,k]))·X + alpha·I`, with no cross-class coupling, and
each class's weight column is updated independently by solving its own
linear system with that (symmetric) block. -/
theorem multi_fit_per_class_hessian_blocks [NeZero K]
    (X : Matrix (Fin n) (Fin dd) ℝ) (T : Matrix (Fin n) (Fin K) ℝ) (α : ℝ)
    (W : Matrix (Fin dd) (Fin K) ℝ)
    (hH : ∀ k, IsUnit (multiBlockSpec X (multiProba X W) α k).det) :
    (∀ i j k, multiHessian X (multiProba X W) α i j k =
      multiBlockSpec X (multiProba X W) α k i j) ∧
    (∀ k, (multiBlockSpec X (multiProba X W) α k)ᵀ =
      multiBlockSpec X (multiProba X W) α k) ∧
    multiStepOpt X T α W = some (Matrix.of fun i k =>
      W i k - (multiBlockSpec X (multiProba X W) α k)⁻¹.mulVec
        (fun a => multiGrad X T α W a k) i) := by
  have hsys : (fun k => Matrix.of fun a b =>
      multiHessian X (multiProba X W) α b a k) =
      fun k => multiBlockSpec X (multiProba X W) α k := by
    funext k
    ext a b
    rw [Matrix.of_apply, multiHessian_eq_block]
    calc multiBlockSpec X (multiProba X W) α k b a
        = (multiBlockSpec X (multiProba X W) α k)ᵀ a b := rfl
      _ = multiBlockSpec X (multiProba X W) α k a b := by
          rw [multiBlockSpec_symm]
  refine ⟨fun i j k => multiHessian_eq_block X _ α i j k,
    fun k => multiBlockSpec_symm X _ α k, ?_⟩
  rw [multiStepOpt, hsys, npSolveBatch]
  rw [if_pos hH]
  rfl

theorem rowMax_fin_one (a : Fin 1 → ℝ) : rowMax a = a 0 := by
  simp [rowMax, Finset.univ_unique, Finset.sup'_singleton]

theorem multiProba_Xone_zero :
    multiProba Xone (Matrix.of ![![(0 : ℝ)]]) = fun _ _ => 1 := by
  funext i k
  have hg : (fun k => (Xone * Matrix.of ![![(0 : ℝ)]]) i k) = fun _ => (0 : ℝ) := by
    funext k
    simp [Xone, Matrix.mul_apply]
  simp only [multiProba, softmax, hg, rowMax_fin_one, sub_zero, Real.exp_zero,
    Fin.sum_univ_one]
  norm_num

theorem multiBlock_Xone_unit :
    ∀ k, IsUnit
      (multiBlockSpec Xone (multiProba Xone (Matrix.of ![![(0 : ℝ)]])) 1 k).det := by
  intro k
  rw [Matrix.det_fin_one, multiProba_Xone_zero]
  simp only [multiBlockSpec, Matrix.add_apply, Matrix.mul_apply,
    Matrix.mul_diagonal, Matrix.diagonal_apply_eq, Matrix.transpose_apply,
    Matrix.smul_apply, Matrix.one_apply_eq, smul_eq_mul, Fin.sum_univ_one]
  norm_num

/-- Witness for C2 on a concrete one-sample, one-class data set. -/
theorem multi_fit_per_class_hessian_blocks_witness :
    (∀ k, IsUnit
      (multiBlockSpec Xone (multiProba Xone (Matrix.of ![![(0 : ℝ)]])) 1 k).det) ∧
    multiStepOpt Xone (Matrix.of ![![(1 : ℝ)]]) 1 (Matrix.of ![![(0 : ℝ)]]) =
      some (Matrix.of fun i k =>
        Matrix.of ![![(0 : ℝ)]] i k -
          (multiBlockSpec Xone
            (multiProba Xone (Matrix.of ![![(0 : ℝ)]])) 1 k)⁻¹.mulVec
            (fun a =>
              multiGrad Xone (Matrix.of ![![(1 : ℝ)]]) 1
                (Matrix.of ![![(0 : ℝ)]]) a k) i) :=
  ⟨multiBlock_Xone_unit,
    (multi_fit_per_class_hessian_blocks Xone (Matrix.of ![![(1 : ℝ)]]) 1
      (Matrix.of ![![(0 : ℝ)]]) multiBlock_Xone_unit).2.2⟩

/-! ### Loop termination and counting (C6, C8, C10) -/

theorem lrLoop_count_le (X : Matrix (Fin n) (Fin d) ℝ) (t : Fin n → ℝ)
    (α : ℝ) : ∀ (fuel : ℕ) (w : Fin d → ℝ), (lrLoop X t α fuel w).2 ≤ fuel := by
  intro fuel
  induction fuel with
  | zero => intro w; simp [lrLoop]
  | succ k ih =>
    intro w
    simp only [lrLoop]
    cases h : lrStepOpt X t α w with
    | none => simp
    | some w2 =>
      simp only
      split_ifs with hc
      · simp
      · simpa using Nat.succ_le_succ (ih w2)

theorem lrLoop_count_pos (X : Matrix (Fin n) (Fin d) ℝ) (t : Fin n → ℝ)
    (α : ℝ) (fuel : ℕ) (w : Fin d → ℝ) : 1 ≤ (lrLoop X t α (fuel + 1) w).2 := by
  simp only [lrLoop]
  cases h : lrStepOpt X t α w with
  | none => simp
  | some w2 =>
    simp only
    split_ifs with hc <;> simp

/-- **C8.** For `iter_max ≥ 1`, `LogisticRegression.fit` runs its IRLS loop
at most `iter_max` times and records a 1-based stopping iteration `n_iter`
with `1 ≤ n_iter ≤ iter_max`. -/
theorem logistic_fit_niter_bounds (X : Matrix (Fin n) (Fin d) ℝ)
    (t : Fin n → ℝ) (α : ℝ) (m : ℤ) (hm : 1 ≤ m) :
    lrFit X t α m = some (lrLoop X t α m.toNat (fun _ => 0)) ∧
    1 ≤ (lrLoop X t α m.toNat (fun _ => 0)).2 ∧
    ((lrLoop X t α m.toNat (fun _ => 0)).2 : ℤ) ≤ m := by
  obtain ⟨k, hk⟩ : ∃ k, m.toNat = k + 1 := ⟨m.toNat - 1, by omega⟩
  refine ⟨?_, ?_, ?_⟩
  · unfold lrFit
    rw [hk]
  · rw [hk]
    exact lrLoop_count_pos X t α k _
  · have h := lrLoop_count_le X t α m.toNat (fun _ => 0)
    omega

/-- Witness for C8 at `iter_max = 1` on a concrete data set. -/
theorem logistic_fit_niter_bounds_witness :
    (1 : ℤ) ≤ 1 ∧
    (lrFit Xone ![(0 : ℝ)] 0 1 =
        some (lrLoop Xone ![(0 : ℝ)] 0 (1 : ℤ).toNat (fun _ => 0)) ∧
      1 ≤ (lrLoop Xone ![(0 : ℝ)] 0 (1 : ℤ).toNat (fun _ => 0)).2 ∧
      ((lrLoop Xone ![(0 : ℝ)] 0 (1 : ℤ).toNat (fun _ => 0)).2 : ℤ) ≤ 1) :=
  ⟨le_refl 1, logistic_fit_niter_bounds Xone ![(0 : ℝ)] 0 1 (le_refl 1)⟩

/-- **C10.** `fit` with `iter_max ≤ 0` never runs the loop body, so the final
`self.n_iter = i + 1` reads the never-assigned loop variable and the call
raises (here: returns `none`); `fit` completes normally exactly when
`iter_max ≥ 1`. -/
theorem fit_errors_iff_nonpositive_iter_max :
    (∀ (n d : ℕ) (X : Matrix (Fin n) (Fin d) ℝ) (t : Fin n → ℝ) (α : ℝ)
      (m : ℤ), lrFit X t α m = none ↔ m ≤ 0) ∧
    (∀ (n dd : ℕ) (X : Matrix (Fin n) (Fin dd) ℝ) (t : Fin n → ℕ) (α : ℝ)
      (m : ℤ), multiFit X t α m = none ↔ m ≤ 0) := by
  constructor
  · intro n d X t α m
    unfold lrFit
    cases h : m.toNat with
    | zero => exact ⟨fun _ => by omega, fun _ => rfl⟩
    | succ k =>
      constructor
      · intro hc
        exact absurd hc (by simp)
      · intro hm
        exact absurd h (by omega)
  · intro n dd X t α m
    unfold multiFit
    cases h : m.toNat with
    | zero => exact ⟨fun _ => by omega, fun _ => rfl⟩
    | succ k =>
      constructor
      · intro hc
        exact absurd hc (by simp)
      · intro hm
        exact absurd h (by omega)

/-- **C6.** When the linear solve of an iteration fails
(`np.linalg.LinAlgError`), the loop breaks: the weights keep the value they
had at the start of that iteration, that iteration is the one recorded by
`n_iter`, and no error escapes; when instead the solve succeeds without
convergence, the iteration count accumulates by one around the recursive
call, so a later failure at iteration `i` yields `n_iter = i + 1`. -/
theorem solve_failure_stops_and_keeps_weights [NeZero K]
    (X : Matrix (Fin n) (Fin d) ℝ) (t : Fin n → ℝ) (α : ℝ) (w : Fin d → ℝ)
    {n2 : ℕ} (X2 : Matrix (Fin n2) (Fin dd) ℝ) (T2 : Matrix (Fin n2) (Fin K) ℝ)
    (α2 : ℝ) (W2 : Matrix (Fin dd) (Fin K) ℝ)
    (h1 : lrStepOpt X t α w = none) (h2 : multiStepOpt X2 T2 α2 W2 = none) :
    (∀ fuel, lrLoop X t α (fuel + 1) w = (w, 1)) ∧
    (∀ fuel, multiLoop X2 T2 α2 (fuel + 1) W2 = (W2, 1)) ∧
    (∀ (wa wb : Fin d → ℝ) (fuel : ℕ), lrStepOpt X t α wa = some wb →
      ¬ npAllclose wa wb →
      lrLoop X t α (fuel + 1) wa =
        ((lrLoop X t α fuel wb).1, (lrLoop X t α fuel wb).2 + 1)) := by
  refine ⟨fun fuel => ?_, fun fuel => ?_, fun wa wb fuel hs hc => ?_⟩
  · simp only [lrLoop, h1]
  · simp only [multiLoop, h2]
  · simp only [lrLoop, hs]
    rw [if_neg hc]

/-- A one-sample data set with two identical features: its IRLS Hessian is
singular, so the very first Newton solve fails. -/
def Xrow2 : Matrix (Fin 1) (Fin 2) ℝ := Matrix.of ![![(1 : ℝ), 1]]

theorem lrProba_Xrow2 : lrProba Xrow2 ![(0 : ℝ), 0] = fun _ => 1 / 2 := by
  funext i
  simp [lrProba, Xrow2, Matrix.mulVec, Matrix.dotProduct, Fin.sum_univ_two,
    sigmoid_zero]

theorem lrStepOpt_Xrow2_none :
    lrStepOpt Xrow2 ![(0 : ℝ)] 0 ![(0 : ℝ), 0] = none := by
  have hdet : (lrHessian Xrow2 (lrProba Xrow2 ![(0 : ℝ), 0]) 0).det = 0 := by
    rw [lrProba_Xrow2, Matrix.det_fin_two]
    simp [lrHessian, Fin.sum_univ_one, Xrow2]
  rw [lrStepOpt, npSolve, if_neg, Option.map_none']
  rw [hdet]
  simp

theorem multiStepOpt_Xone_none :
    multiStepOpt Xone (Matrix.of ![![(1 : ℝ)]]) 0 (Matrix.of ![![(0 : ℝ)]]) =
      none := by
  have hdet : ((fun k => Matrix.of fun a b =>
      multiHessian Xone (multiProba Xone (Matrix.of ![![(0 : ℝ)]])) 0 b a k)
        0).det = 0 := by
    simp only [Matrix.det_fin_one, Matrix.of_apply, multiProba_Xone_zero]
    simp [multiHessian, Fin.sum_univ_one]
  rw [multiStepOpt, npSolveBatch, if_neg, Option.map_none']
  intro hall
  have := hall 0
  rw [hdet] at this
  simp at this

/-- Witness for C6: concrete singular first iterations for both fitters. -/
theorem solve_failure_stops_and_keeps_weights_witness :
    lrStepOpt Xrow2 ![(0 : ℝ)] 0 ![(0 : ℝ), 0] = none ∧
    multiStepOpt Xone (Matrix.of ![![(1 : ℝ)]]) 0 (Matrix.of ![![(0 : ℝ)]]) =
      none ∧
    (∀ fuel, lrLoop Xrow2 ![(0 : ℝ)] 0 (fuel + 1) ![(0 : ℝ), 0] =
      (![(0 : ℝ), 0], 1)) ∧
    (∀ fuel, multiLoop Xone (Matrix.of ![![(1 : ℝ)]]) 0 (fuel + 1)
      (Matrix.of ![![(0 : ℝ)]]) = (Matrix.of ![![(0 : ℝ)]], 1)) :=
  ⟨lrStepOpt_Xrow2_none, multiStepOpt_Xone_none,
    (solve_failure_stops_and_keeps_weights Xrow2 ![(0 : ℝ)] 0 ![(0 : ℝ), 0]
      Xone (Matrix.of ![![(1 : ℝ)]]) 0 (Matrix.of ![![(0 : ℝ)]])
      lrStepOpt_Xrow2_none multiStepOpt_Xone_none).1,
    (solve_failure_stops_and_keeps_weights Xrow2 ![(0 : ℝ)] 0 ![(0 : ℝ), 0]
      Xone (Matrix.of ![![(1 : ℝ)]]) 0 (Matrix.of ![![(0 : ℝ)]])
      lrStepOpt_Xrow2_none multiStepOpt_Xone_none).2.1⟩

/-! ### `BayesianLogisticRegression` (C5) -/

/-- The per-row predictive variance of `BayesianLogisticRegression
.predict_dist`: `var_a = np.sum(X @ self.w_cov * X, axis=1)`. -/
def varA (X : Matrix (Fin n) (Fin d) ℝ) (wcov : Matrix (Fin d) (Fin d) ℝ) :
    Fin n → ℝ :=
  fun i => ∑ j, (X * wcov) i j * X i j

/-- `BayesianLogisticRegression.predict_dist`:
`sigmoid(mu_a / np.sqrt(1 + np.pi * var_a / 8))` with `mu_a = X @ self.w`. -/
def predictDist (X : Matrix (Fin n) (Fin d) ℝ) (w : Fin d → ℝ)
    (wcov : Matrix (Fin d) (Fin d) ℝ) : Fin n → ℝ :=
  fun i => sigmoid (X.mulVec w i / Real.sqrt (1 + Real.pi * varA X wcov i / 8))

theorem sigmoid_mono {a b : ℝ} (h : a ≤ b) : sigmoid a ≤ sigmoid b := by
  have h1 : (0 : ℝ) < 1 + Real.exp (-b) := by positivity
  have h2 : Real.exp (-b) ≤ Real.exp (-a) := Real.exp_le_exp.mpr (neg_le_neg h)
  simp only [sigmoid]
  apply one_div_le_one_div_of_le h1
  linarith

/-- **C5.** For a stored posterior covariance whose induced per-row variance
`var_a = xᵀ·w_cov·x` is nonnegative, `predict_dist` returns
`sigmoid(mean_a / sqrt(1 + π·var_a/8))` per row, and that value lies weakly
between the corresponding `predict_proba` value and `1/2`. -/
theorem bayes_predict_dist_shrinks_toward_half
    (X : Matrix (Fin n) (Fin d) ℝ) (w : Fin d → ℝ)
    (wcov : Matrix (Fin d) (Fin d) ℝ)
    (hv : ∀ i, 0 ≤ varA X wcov i) (i : Fin n) :
    predictDist X w wcov i =
      sigmoid (X.mulVec w i / Real.sqrt (1 + Real.pi * varA X wcov i / 8)) ∧
    min (lrProba X w i) (1 / 2) ≤ predictDist X w wcov i ∧
    predictDist X w wcov i ≤ max (lrProba X w i) (1 / 2) := by
  set μ := X.mulVec w i with hμdef
  set v := varA X wcov i with hvdef
  have hvnn : 0 ≤ v := hv i
  have harg : (1 : ℝ) ≤ 1 + Real.pi * v / 8 := by
    have := Real.pi_pos
    nlinarith
  have hs1 : (1 : ℝ) ≤ Real.sqrt (1 + Real.pi * v / 8) := by
    calc (1 : ℝ) = Real.sqrt 1 := Real.sqrt_one.symm
      _ ≤ Real.sqrt (1 + Real.pi * v / 8) := Real.sqrt_le_sqrt harg
  have hspos : (0 : ℝ) < Real.sqrt (1 + Real.pi * v / 8) :=
    lt_of_lt_of_le one_pos hs1
  refine ⟨rfl, ?_, ?_⟩
  all_goals
    have hproba : lrProba X w i = sigmoid μ := rfl
    have hdist : predictDist X w wcov i =
        sigmoid (μ / Real.sqrt (1 + Real.pi * v / 8)) := rfl
    rcases le_total 0 μ with hsign | hsign
  · -- μ ≥ 0: 1/2 = sigmoid 0 ≤ predictDist
    have h0 : (0 : ℝ) ≤ μ / Real.sqrt (1 + Real.pi * v / 8) :=
      div_nonneg hsign hspos.le
    rw [hdist]
    refine le_trans (min_le_right _ _) ?_
    rw [← sigmoid_zero]
    exact sigmoid_mono h0
  · -- μ ≤ 0: predict_proba ≤ predictDist
    have hle : μ ≤ μ / Real.sqrt (1 + Real.pi * v / 8) := by
      have hneg : (0 : ℝ) ≤ -μ := neg_nonneg.mpr hsign
      have := div_le_self hneg hs1
      have heq : -μ / Real.sqrt (1 + Real.pi * v / 8) =
          -(μ / Real.sqrt (1 + Real.pi * v / 8)) := by ring
      rw [heq] at this
      linarith
    rw [hdist, hproba]
    exact le_trans (min_le_left _ _) (sigmoid_mono hle)
  · -- μ ≥ 0: predictDist ≤ predict_proba
    have hle : μ / Real.sqrt (1 + Real.pi * v / 8) ≤ μ :=
      div_le_self hsign hs1
    rw [hdist, hproba]
    exact le_trans (sigmoid_mono hle) (le_max_left _ _)
  · -- μ ≤ 0: predictDist ≤ 1/2 = sigmoid 0
    have h0 : μ / Real.sqrt (1 + Real.pi * v / 8) ≤ 0 :=
      div_nonpos_of_nonpos_of_nonneg hsign hspos.le
    rw [hdist]
    refine le_trans ?_ (le_max_right _ _)
    rw [← sigmoid_zero]
    exact sigmoid_mono h0

theorem varA_Xone_nonneg : ∀ i, 0 ≤ varA Xone (Matrix.of ![![(1 : ℝ)]]) i := by
  intro i
  simp [varA, Xone, Matrix.mul_apply, Fin.sum_univ_one]

/-- Witness for C5 on a concrete fitted state. -/
theorem bayes_predict_dist_shrinks_toward_half_witness :
    (∀ i, 0 ≤ varA Xone (Matrix.of ![![(1 : ℝ)]]) i) ∧
    (min (lrProba Xone ![(0 : ℝ)] 0) (1 / 2) ≤
        predictDist Xone ![(0 : ℝ)] (Matrix.of ![![(1 : ℝ)]]) 0 ∧
      predictDist Xone ![(0 : ℝ)] (Matrix.of ![![(1 : ℝ)]]) 0 ≤
        max (lrProba Xone ![(0 : ℝ)] 0) (1 / 2)) :=
  ⟨varA_Xone_nonneg,
    (bayes_predict_dist_shrinks_toward_half Xone ![(0 : ℝ)]
      (Matrix.of ![![(1 : ℝ)]]) varA_Xone_nonneg 0).2⟩

/-! ### `GaussianProcessClassifier` (C3) -/

/-- First component of `GaussianProcessClassifier._pairwise(x, y)`:
`np.tile(x, (len(y), 1, 1)).transpose(1, 0, 2)`, i.e. the (i, j) slot holds
row `i` of `x`. -/
def pairwiseFst {m p : ℕ} (x : Matrix (Fin m) (Fin dd) ℝ)
    (y : Matrix (Fin p) (Fin dd) ℝ) : Fin m → Fin p → (Fin dd → ℝ) :=
  fun i _ => x i

/-- Second component of `GaussianProcessClassifier._pairwise(x, y)`:
`np.tile(y, (len(x), 1, 1))`, i.e. the (i, j) slot holds row `j` of `y`. -/
def pairwiseSnd {m p : ℕ} (x : Matrix (Fin m) (Fin dd) ℝ)
    (y : Matrix (Fin p) (Fin dd) ℝ) : Fin m → Fin p → (Fin dd → ℝ) :=
  fun _ j => y j

/-- `self.kernel(*self._pairwise(x, y))`: the external kernel function is an
opaque pairwise map on feature vectors, applied to the two tiled batches. -/
def kernelMatrix {m p : ℕ} (κ : (Fin dd → ℝ) → (Fin dd → ℝ) → ℝ)
    (x : Matrix (Fin m) (Fin dd) ℝ) (y : Matrix (Fin p) (Fin dd) ℝ) :
    Matrix (Fin m) (Fin p) ℝ :=
  Matrix.of fun i j => κ (pairwiseFst x y i j) (pairwiseSnd x y i j)

/-- The state stored by `GaussianProcessClassifier.fit`. -/
structure GPModel (n dd : ℕ) where
  X : Matrix (Fin n) (Fin dd) ℝ
  t : Fin n → ℝ
  covariance : Matrix (Fin n) (Fin n) ℝ
  precision : Matrix (Fin n) (Fin n) ℝ

/-- `GaussianProcessClassifier.fit(X, t)`: store the training data, build
`covariance = Gram + np.eye(len(Gram)) * nu` and
`precision = np.linalg.inv(covariance)`; `np.linalg.inv` raises on a
singular covariance (`none`). -/
def gpFit (κ : (Fin dd → ℝ) → (Fin dd → ℝ) → ℝ) (ν : ℝ)
    (X : Matrix (Fin n) (Fin dd) ℝ) (t : Fin n → ℝ) :
    Option (GPModel n dd) := by
  classical
  exact if IsUnit (kernelMatrix κ X X + ν • (1 : Matrix (Fin n) (Fin n) ℝ)).det
    then some ⟨X, t, kernelMatrix κ X X + ν • 1,
      (kernelMatrix κ X X + ν • (1 : Matrix (Fin n) (Fin n) ℝ))⁻¹⟩
    else none

/-- `GaussianProcessClassifier.predict(X)`:
`sigmoid(K @ self.precision @ self.t)`. -/
def gpPredict {m : ℕ} (κ : (Fin dd → ℝ) → (Fin dd → ℝ) → ℝ)
    (model : GPModel n dd) (X : Matrix (Fin m) (Fin dd) ℝ) : Fin m → ℝ :=
  fun i => sigmoid ((kernelMatrix κ X model.X * model.precision).mulVec
    model.t i)

/-- The reshape `X[:, None]` applied to a 1-D input batch. -/
def colMat {m : ℕ} (x : Fin m → ℝ) : Matrix (Fin m) (Fin 1) ℝ :=
  Matrix.of fun i _ => x i

/-- `fit` on a 1-D input batch reshapes it to column form first. -/
def gpFit1D (κ : (Fin 1 → ℝ) → (Fin 1 → ℝ) → ℝ) (ν : ℝ) {m : ℕ}
    (x : Fin m → ℝ) (t : Fin m → ℝ) : Option (GPModel m 1) :=
  gpFit κ ν (colMat x) t

/-- `predict` on a 1-D input batch reshapes it to column form first. -/
def gpPredict1D (κ : (Fin 1 → ℝ) → (Fin 1 → ℝ) → ℝ) {n m : ℕ}
    (model : GPModel n 1) (x : Fin m → ℝ) : Fin m → ℝ :=
  gpPredict κ model (colMat x)

/-- **C3.** A fitted `GaussianProcessClassifier` with training data
`(X_train, t)` and jitter `nu` predicts `sigmoid(K · (Gram + nu·I)⁻¹ · t)`,
where `Gram` is the kernel matrix over all training pairs and `K` the kernel
matrix between the new inputs and the stored training inputs; 1-D inputs are
reshaped to column form first. -/
theorem gp_predict_posterior_mean_formula
    (κ : (Fin dd → ℝ) → (Fin dd → ℝ) → ℝ) (ν : ℝ)
    (Xtr : Matrix (Fin n) (Fin dd) ℝ) (t : Fin n → ℝ) (model : GPModel n dd)
    (hm : gpFit κ ν Xtr t = some model) :
    model.X = Xtr ∧ model.t = t ∧
    (∀ a b, kernelMatrix κ Xtr Xtr a b = κ (Xtr a) (Xtr b)) ∧
    model.precision =
      (kernelMatrix κ Xtr Xtr + ν • (1 : Matrix (Fin n) (Fin n) ℝ))⁻¹ ∧
    (∀ (m : ℕ) (X : Matrix (Fin m) (Fin dd) ℝ) (i : Fin m),
      gpPredict κ model X i =
        sigmoid (((Matrix.of fun a b => κ (X a) (Xtr b)) *
          (kernelMatrix κ Xtr Xtr + ν • (1 : Matrix (Fin n) (Fin n) ℝ))⁻¹).mulVec
          t i)) ∧
    (∀ (q : ℕ) (x : Fin q → ℝ)
      (κ1 : (Fin 1 → ℝ) → (Fin 1 → ℝ) → ℝ) (t1 : Fin q → ℝ),
      gpFit1D κ1 ν x t1 = gpFit κ1 ν (colMat x) t1 ∧
      (∀ i j, colMat x i j = x i)) := by
  by_cases hdet :
      IsUnit (kernelMatrix κ Xtr Xtr + ν • (1 : Matrix (Fin n) (Fin n) ℝ)).det
  · rw [gpFit, if_pos hdet] at hm
    obtain rfl : (⟨Xtr, t, kernelMatrix κ Xtr Xtr + ν • 1,
        (kernelMatrix κ Xtr Xtr + ν • (1 : Matrix (Fin n) (Fin n) ℝ))⁻¹⟩ :
          GPModel n dd) = model := Option.some_injective _ hm
    refine ⟨rfl, rfl, fun a b => rfl, rfl, fun m X i => ?_,
      fun q x κ1 t1 => ⟨rfl, fun i j => rfl⟩⟩
    rfl
  · rw [gpFit, if_neg hdet] at hm
    exact absurd hm (by simp)

/-- A concrete constant kernel used to instantiate the GP theorems. -/
def constKernel : (Fin 1 → ℝ) → (Fin 1 → ℝ) → ℝ := fun _ _ => 1

theorem gpFit_constKernel_some :
    gpFit constKernel 1 Xone ![(0 : ℝ)] =
      some ⟨Xone, ![(0 : ℝ)], kernelMatrix constKernel Xone Xone + (1 : ℝ) • 1,
        (kernelMatrix constKernel Xone Xone +
          (1 : ℝ) • (1 : Matrix (Fin 1) (Fin 1) ℝ))⁻¹⟩ := by
  rw [gpFit, if_pos]
  rw [Matrix.det_fin_one]
  simp [kernelMatrix, constKernel, pairwiseFst, pairwiseSnd]

/-- Witness for C3 with a constant kernel on a one-point training set. -/
theorem gp_predict_posterior_mean_formula_witness :
    gpFit constKernel 1 Xone ![(0 : ℝ)] =
      some ⟨Xone, ![(0 : ℝ)], kernelMatrix constKernel Xone Xone + (1 : ℝ) • 1,
        (kernelMatrix constKernel Xone Xone +
          (1 : ℝ) • (1 : Matrix (Fin 1) (Fin 1) ℝ))⁻¹⟩ ∧
    (∀ (m : ℕ) (X : Matrix (Fin m) (Fin 1) ℝ) (i : Fin m),
      gpPredict constKernel
        ⟨Xone, ![(0 : ℝ)], kernelMatrix constKernel Xone Xone + (1 : ℝ) • 1,
          (kernelMatrix constKernel Xone Xone +
            (1 : ℝ) • (1 : Matrix (Fin 1) (Fin 1) ℝ))⁻¹⟩ X i =
        sigmoid (((Matrix.of fun a b => constKernel (X a) (Xone b)) *
          (kernelMatrix constKernel Xone Xone +
            (1 : ℝ) • (1 : Matrix (Fin 1) (Fin 1) ℝ))⁻¹).mulVec
          ![(0 : ℝ)] i)) :=
  ⟨gpFit_constKernel_some,
    (gp_predict_posterior_mean_formula constKernel 1 Xone ![(0 : ℝ)] _
      gpFit_constKernel_some).2.2.2.2.1⟩

/-! ### `LinearDiscriminantAnalysis` (C4, C7) -/

/-- The two ways a `LinearDiscriminantAnalysis.fit` call can fail: the
`assert np.max(t) + 1 == 2` precondition (an `AssertionError`) or the
`np.linalg.inv` of a singular scatter matrix (a `LinAlgError`). -/
inductive FitError where
  | assertionError
  | linAlgError

/-- Parameters stored by `LinearDiscriminantAnalysis.fit`. -/
structure LDAModel (d : ℕ) where
  w : Fin d → ℝ
  threshold : ℝ

/-- The sample indices of class `c`: the rows selected by `X[t == c]`. -/
def classIdx (t : Fin n → ℕ) (c : ℕ) : Finset (Fin n) := by
  classical exact Finset.univ.filter (fun i => t i = c)

/-- `np.mean(X[t == c], axis=0)`. -/
def classMean (X : Matrix (Fin n) (Fin d) ℝ) (t : Fin n → ℕ) (c : ℕ) :
    Fin d → ℝ :=
  fun j => (∑ i in classIdx t c, X i j) / (classIdx t c).card

/-- The pooled within-class scatter matrix
`(X0 - m0).T @ (X0 - m0) + (X1 - m1).T @ (X1 - m1)`. -/
def scatter (X : Matrix (Fin n) (Fin d) ℝ) (t : Fin n → ℕ) :
    Matrix (Fin d) (Fin d) ℝ :=
  Matrix.of fun j k =>
    (∑ i in classIdx t 0,
      (X i j - classMean X t 0 j) * (X i k - classMean X t 0 k)) +
    (∑ i in classIdx t 1,
      (X i j - classMean X t 1 j) * (X i k - classMean X t 1 k))

/-- Modelled from the spec: the external `distributions.Gaussian` collaborator
(its source file is not under `src/`) "given a 1-D sample, exposes `mean` and
`var` (population variance) attributes"; this is its mean. -/
def gaussianMean (s : Finset (Fin n)) (f : Fin n → ℝ) : ℝ :=
  (∑ i in s, f i) / s.card

/-- Modelled from the spec: population variance of the external
`distributions.Gaussian` collaborator. -/
def gaussianVar (s : Finset (Fin n)) (f : Fin n → ℝ) : ℝ :=
  (∑ i in s, (f i - gaussianMean s f) ^ 2) / s.card

/-- The unnormalized direction `np.linalg.inv(cov_inclass) @ (m1 - m0)`. -/
def ldaW0 (X : Matrix (Fin n) (Fin d) ℝ) (t : Fin n → ℕ) : Fin d → ℝ :=
  (scatter X t)⁻¹.mulVec (classMean X t 1 - classMean X t 0)

/-- The stored direction after
`self.w /= np.linalg.norm(self.w).clip(min=1e-10)`. -/
def ldaW (X : Matrix (Fin n) (Fin d) ℝ) (t : Fin n → ℕ) : Fin d → ℝ :=
  fun j => ldaW0 X t j / max (Real.sqrt (∑ k, ldaW0 X t k ^ 2)) 1e-10

/-- The decision threshold solved from the two class-conditional Gaussians of
the projections `X0 @ w` and `X1 @ w`. -/
def ldaThreshold (X : Matrix (Fin n) (Fin d) ℝ) (t : Fin n → ℕ) : ℝ :=
  let proj := X.mulVec (ldaW X t)
  let mean0 := gaussianMean (classIdx t 0) proj
  let mean1 := gaussianMean (classIdx t 1) proj
  let var0 := gaussianVar (classIdx t 0) proj
  let var1 := gaussianVar (classIdx t 1) proj
  let a := var1 - var0
  let b := var0 * mean1 - var1 * mean0
  let c := var1 * mean0 ^ 2 - var0 * mean1 ^ 2 -
    var1 * var0 * Real.log (var1 / var0)
  (Real.sqrt (b ^ 2 - a * c) - b) / a

/-- `LinearDiscriminantAnalysis.fit(X, t)`: first the
`assert np.max(t) + 1 == 2` precondition, then the closed-form direction and
threshold; a singular scatter matrix makes `np.linalg.inv` raise. -/
def ldaFit (X : Matrix (Fin n) (Fin d) ℝ) (t : Fin n → ℕ) :
    Except FitError (LDAModel d) := by
  classical
  exact if Finset.univ.sup t + 1 = 2 then
    if IsUnit (scatter X t).det then
      Except.ok ⟨ldaW X t, ldaThreshold X t⟩
    else Except.error FitError.linAlgError
  else Except.error FitError.assertionError

/-- The target vector `[1, 1]`: its label set is `{1}`, not `{0, 1}`, yet
`np.max(t) + 1 == 2` holds, so the assertion does not fire. -/
def t2ones : Fin 2 → ℕ := ![1, 1]

/-- The 2×1 input paired with `t2ones` in the counterexample. -/
def X2col : Matrix (Fin 2) (Fin 1) ℝ := Matrix.of ![![(0 : ℝ)], ![2]]

/-- Counterexample to C7 as stated: `t = [1, 1]` has distinct-label set
`{1} ≠ {0, 1}`, but `LinearDiscriminantAnalysis.fit` does not fail with the
precondition violation, because the assert only checks `max(t) + 1 == 2`. -/
theorem lda_precondition_counterexample :
    Finset.image t2ones Finset.univ ≠ ({0, 1} : Finset ℕ) ∧
    ldaFit X2col t2ones ≠ Except.error FitError.assertionError := by
  constructor
  · decide
  · rw [ldaFit, if_pos (by decide)]
    split_ifs <;> simp

/-- **C7 (amended).** `LinearDiscriminantAnalysis.fit(X, t)` fails immediately
with the precondition violation exactly when `max(t) + 1 ≠ 2`; the assertion
checks only the maximum label, not that both labels 0 and 1 occur. -/
theorem lda_precondition_checks_max_label_only {n2 : ℕ}
    (X : Matrix (Fin (n2 + 1)) (Fin d) ℝ) (t : Fin (n2 + 1) → ℕ) :
    ldaFit X t = Except.error FitError.assertionError ↔
      Finset.univ.sup t + 1 ≠ 2 := by
  rw [ldaFit]
  split_ifs with hsup hdet <;> simp [hsup]

/-- Mean of a class's projections `Xc @ w` under the fitted direction. -/
def projMean (X : Matrix (Fin n) (Fin d) ℝ) (t : Fin n → ℕ) (c : ℕ) : ℝ :=
  gaussianMean (classIdx t c) (X.mulVec (ldaW X t))

/-- Variance of a class's projections `Xc @ w` under the fitted direction. -/
def projVar (X : Matrix (Fin n) (Fin d) ℝ) (t : Fin n → ℕ) (c : ℕ) : ℝ :=
  gaussianVar (classIdx t c) (X.mulVec (ldaW X t))

/-- **C4.** `LinearDiscriminantAnalysis.fit` sets the direction to
`w = inverse(S)·(m1−m0)` normalized by its (euclidean) norm clipped below at
`1e-10`, and sets `threshold = (sqrt(b²−ac) − b)/a` where, with the Gaussian
summaries `(mean0, var0)`, `(mean1, var1)` of the two classes' projections
onto `w`: `a = var1−var0`, `b = var0·mean1 − var1·mean0`,
`c = var1·mean0² − var0·mean1² − var1·var0·ln(var1/var0)`. -/
theorem lda_fit_direction_and_threshold
    (X : Matrix (Fin n) (Fin d) ℝ) (t : Fin n → ℕ)
    (h2 : Finset.univ.sup t + 1 = 2) (hS : IsUnit (scatter X t).det) :
    ldaFit X t = Except.ok ⟨ldaW X t, ldaThreshold X t⟩ ∧
    (∀ j, ldaW X t j =
      (scatter X t)⁻¹.mulVec (classMean X t 1 - classMean X t 0) j /
        max ‖((WithLp.equiv 2 (Fin d → ℝ)).symm
          ((scatter X t)⁻¹.mulVec (classMean X t 1 - classMean X t 0)) :
            EuclideanSpace ℝ (Fin d))‖ 1e-10) ∧
    ldaThreshold X t =
      (Real.sqrt ((projVar X t 0 * projMean X t 1 -
            projVar X t 1 * projMean X t 0) ^ 2 -
          (projVar X t 1 - projVar X t 0) *
            (projVar X t 1 * projMean X t 0 ^ 2 -
              projVar X t 0 * projMean X t 1 ^ 2 -
              projVar X t 1 * projVar X t 0 *
                Real.log (projVar X t 1 / projVar X t 0))) -
        (projVar X t 0 * projMean X t 1 - projVar X t 1 * projMean X t 0)) /
      (projVar X t 1 - projVar X t 0) := by
  have hnorm : ‖((WithLp.equiv 2 (Fin d → ℝ)).symm (ldaW0 X t) :
      EuclideanSpace ℝ (Fin d))‖ = Real.sqrt (∑ k, ldaW0 X t k ^ 2) := by
    rw [EuclideanSpace.norm_eq]
    congr 1
    exact Finset.sum_congr rfl fun k _ => by
      rw [WithLp.equiv_symm_pi_apply, Real.norm_eq_abs, sq_abs]
  refine ⟨?_, fun j => ?_, rfl⟩
  · rw [ldaFit, if_pos h2, if_pos hS]
  · rw [ldaW, ← hnorm]
    rfl

/-- A 4-sample, 1-feature, two-class data set for the LDA witness. -/
def X4 : Matrix (Fin 4) (Fin 1) ℝ := Matrix.of ![![(0 : ℝ)], ![2], ![10], ![14]]

/-- Labels for `X4`: two samples in each class. -/
def t4 : Fin 4 → ℕ := ![0, 0, 1, 1]

theorem classIdx_t4_zero : classIdx t4 0 = {0, 1} := by decide

theorem classIdx_t4_one : classIdx t4 1 = {2, 3} := by decide

theorem classMean_X4_zero : classMean X4 t4 0 = fun _ => 1 := by
  funext j
  have hj : j = 0 := Fin.eq_zero j
  subst hj
  rw [classMean, classIdx_t4_zero, Finset.sum_pair (by decide)]
  have e0 : X4 0 0 = 0 := rfl
  have e1 : X4 1 0 = 2 := rfl
  rw [e0, e1, Finset.card_pair (by decide)]
  norm_num

theorem classMean_X4_one : classMean X4 t4 1 = fun _ => 12 := by
  funext j
  have hj : j = 0 := Fin.eq_zero j
  subst hj
  rw [classMean, classIdx_t4_one, Finset.sum_pair (by decide)]
  have e2 : X4 2 0 = 10 := rfl
  have e3 : X4 3 0 = 14 := rfl
  rw [e2, e3, Finset.card_pair (by decide)]
  norm_num

theorem scatter_X4_unit : IsUnit (scatter X4 t4).det := by
  have h00 : scatter X4 t4 0 0 = 10 := by
    show (∑ i in classIdx t4 0,
        (X4 i 0 - classMean X4 t4 0 0) * (X4 i 0 - classMean X4 t4 0 0)) +
      (∑ i in classIdx t4 1,
        (X4 i 0 - classMean X4 t4 1 0) * (X4 i 0 - classMean X4 t4 1 0)) = 10
    rw [classIdx_t4_zero, classIdx_t4_one, classMean_X4_zero, classMean_X4_one,
      Finset.sum_pair (by decide), Finset.sum_pair (by decide)]
    have e0 : X4 0 0 = 0 := rfl
    have e1 : X4 1 0 = 2 := rfl
    have e2 : X4 2 0 = 10 := rfl
    have e3 : X4 3 0 = 14 := rfl
    rw [e0, e1, e2, e3]
    norm_num
  rw [Matrix.det_fin_one, h00]
  exact isUnit_iff_ne_zero.mpr (by norm_num)

/-- Witness for C4 on a concrete two-class data set. -/
theorem lda_fit_direction_and_threshold_witness :
    Finset.univ.sup t4 + 1 = 2 ∧ IsUnit (scatter X4 t4).det ∧
    ldaFit X4 t4 = Except.ok ⟨ldaW X4 t4, ldaThreshold X4 t4⟩ :=
  ⟨by decide, scatter_X4_unit,
    (lda_fit_direction_and_threshold X4 t4 (by decide) scatter_X4_unit).1⟩

end

end Classifications
